import Mathlib

/-!
Verification of the CiteSphere2 citation-network engine.

The definitions below are a shallow embedding of the TypeScript sources:
* `src/server/services/pubmedService.ts` — identifier resolver (`searchByDoi`),
  metadata fetcher with an on-disk cache (`fetchPaperXml`), and link discovery
  (`findSimilarPapers`, `getRelatedPapers`);
* `src/server/routes.ts` — the two traversal modes of `POST /api/generate-network`:
  the interleaved recursive `processPaper` and the staged `collectPmids`
  (Phase 1) / XML fetch (Phase 2) / parse-and-assemble (Phase 3) pipeline;
* `src/shared/schema.ts` — the node/edge/network shapes.

Effectful code is modelled by explicit state passing: upstream responses are
supplied by oracle functions, the on-disk cache is an association list, and
the sequence of upstream calls issued is threaded through the state so that
"zero network calls" claims are statable.  Cooperative async scheduling of
Phase 1 is modelled as a FIFO pool of pending continuations, which is the
microtask order the runtime produces when upstream calls resolve in the
order they were issued.
-/

/-- Outcome of one upstream HTTP query: either a decoded payload or a
network/service failure (a rejected fetch or a thrown decode error). -/
inductive UpstreamResult (α : Type) where
  | ok (payload : α)
  | err
deriving DecidableEq, Repr

/-- Relation kind of a network edge (`NetworkEdge.type` in `shared/schema.ts`,
`z.enum(['cites', 'cited_by'])`). -/
inductive EdgeType where
  | cites
  | cited_by
deriving DecidableEq, Repr

/-- `NetworkEdge` from `shared/schema.ts`. -/
structure NetworkEdge where
  source : String
  target : String
  type : EdgeType
deriving DecidableEq, Repr

/-- `PubMedSearchResult` from `shared/schema.ts`: the structured summary the
XML parser extracts from one raw record. -/
structure PubMedSearchResult where
  pmid : String
  doi : Option String := none
  title : String := ""
  authors : List String := []
  journal : Option String := none
  year : Option Nat := none
  abstract : Option String := none
deriving DecidableEq, Repr

/-- `NetworkNode` from `shared/schema.ts` (the optional layout coordinates
`x`/`y` are UI-only pass-through and omitted). -/
structure NetworkNode where
  id : String
  pmid : String
  doi : Option String
  title : String
  authors : List String
  journal : Option String
  year : Option Nat
  citationCount : Nat
  level : Nat
deriving DecidableEq, Repr

/-- `NetworkMetadata` from `shared/schema.ts`.  Wall-clock `processingTime`
is not modelled and is always 0 in the embedding. -/
structure NetworkMetadata where
  totalNodes : Nat
  totalEdges : Nat
  processingTime : Nat
  maxDepth : Nat
deriving DecidableEq, Repr

/-- A stored `CitationNetwork` row (`shared/schema.ts`), minus the
database-assigned id and timestamp. -/
structure CitationNetwork where
  rootDoi : String
  depth : Nat
  nodes : List NetworkNode
  edges : List NetworkEdge
  metadata : NetworkMetadata
deriving DecidableEq, Repr

/-! ## Identifier resolver — `pubmedService.searchByDoi`

The esearch response is modelled as `UpstreamResult (Option (List String))`:
`err` when the query itself cannot complete (the `catch` branch),
`ok none` when `data.esearchresult?.idlist` is absent, and `ok (some ids)`
for a decoded id list. -/

/-- `searchByDoi` from `pubmedService.ts`: returns `idlist[0]` when
`idlist.length > 0`, and `null` (here `none`) otherwise — including on a
caught network/service error. -/
def searchByDoi (resp : UpstreamResult (Option (List String))) : Option String :=
  match resp with
  | UpstreamResult.err => none
  | UpstreamResult.ok none => none
  | UpstreamResult.ok (some idlist) => idlist.head?

/-! ## Metadata fetcher + cache — `pubmedService.fetchPaperXml`

The on-disk cache (`pubmed_cache/<pmid>.xml`) is an association list keyed by
pmid.  `net` is the efetch oracle; `cacheWriteOk` models whether the
best-effort `cacheXml` write succeeds (its failure is caught and logged).
`netCalls` records the pmids for which a network request was issued. -/

/-- Read `pubmed_cache/<pmid>.xml` (`getCachedXml`): `none` when the file is
missing or unreadable. -/
def lookupCache (cache : List (String × String)) (pmid : String) : Option String :=
  (cache.find? (fun pr => pr.1 == pmid)).map Prod.snd

/-- Write `pubmed_cache/<pmid>.xml` (`cacheXml` success path): overwrite an
existing entry or create a new one. -/
def writeCache : List (String × String) → String → String → List (String × String)
  | [], pmid, xml => [(pmid, xml)]
  | pr :: rest, pmid, xml =>
    if pr.1 == pmid then (pmid, xml) :: rest else pr :: writeCache rest pmid xml

/-- Result of one `fetchPaperXml` call: the payload (or `none` on failure),
the cache state afterwards, and the network requests issued. -/
structure FetchResult where
  payload : Option String
  cache : List (String × String)
  netCalls : List String
deriving DecidableEq, Repr

/-- The miss path of `fetchPaperXml`: issue the efetch request; on success
write through to the cache best-effort (a write failure is caught, logged,
and not propagated) and return the payload; on failure return `none`. -/
def fetchFromNetwork (cache : List (String × String)) (net : String → UpstreamResult String)
    (cacheWriteOk : Bool) (pmid : String) : FetchResult :=
  match net pmid with
  | UpstreamResult.ok xml =>
    { payload := some xml
      cache := if cacheWriteOk then writeCache cache pmid xml else cache
      netCalls := [pmid] }
  | UpstreamResult.err => { payload := none, cache := cache, netCalls := [pmid] }

/-- `fetchPaperXml` from `pubmedService.ts`: cache check first.  The hit
test is the JS truthiness check `if (cachedXml)`, so a cache file that is
missing, unreadable, *or holds the empty string* falls through to the
network path; only a non-empty cached record returns immediately with no
network call. -/
def fetchPaperXml (cache : List (String × String)) (net : String → UpstreamResult String)
    (cacheWriteOk : Bool) (pmid : String) : FetchResult :=
  match lookupCache cache pmid with
  | some cachedXml =>
    if cachedXml = "" then fetchFromNetwork cache net cacheWriteOk pmid
    else { payload := some cachedXml, cache := cache, netCalls := [] }
  | none => fetchFromNetwork cache net cacheWriteOk pmid

/-! ## Link discovery — `findSimilarPapers` / `getRelatedPapers`

The elink response is modelled as `UpstreamResult (Option (List LinkSetDb))`:
`err` for the `catch` branch, `ok none` when `data.linksets?.[0]?.linksetdbs`
is absent, and `ok (some dbs)` for a decoded linkset-db list. -/

/-- One entry of `linksets[0].linksetdbs`.  `links := none` models an absent
(falsy) `links` field; `some []` is a present empty array (truthy in JS). -/
structure LinkSetDb where
  linkname : String
  links : Option (List String)
deriving DecidableEq, Repr

/-- The shared loop body of both link-discovery functions: for every
linkset-db whose `linkname` matches and whose `links` field is present, push
`links.slice(0, maxResults)`. -/
def collectLinks (name : String) (maxResults : Nat) (dbs : List LinkSetDb) : List String :=
  dbs.foldl
    (fun acc db =>
      if db.linkname == name then
        match db.links with
        | some links => acc ++ links.take maxResults
        | none => acc
      else acc)
    []

/-- `findSimilarPapers` from `pubmedService.ts` (`pubmed_pubmed_citedin`
links, i.e. papers citing the given one).  Any failure degrades to `[]`. -/
def findSimilarPapers (resp : UpstreamResult (Option (List LinkSetDb))) (maxResults : Nat) :
    List String :=
  match resp with
  | UpstreamResult.err => []
  | UpstreamResult.ok none => []
  | UpstreamResult.ok (some dbs) => collectLinks "pubmed_pubmed_citedin" maxResults dbs

/-- `getRelatedPapers` from `pubmedService.ts` (`pubmed_pubmed` links, the
"related" relation).  Any failure degrades to `[]`. -/
def getRelatedPapers (resp : UpstreamResult (Option (List LinkSetDb))) (maxResults : Nat) :
    List String :=
  match resp with
  | UpstreamResult.err => []
  | UpstreamResult.ok none => []
  | UpstreamResult.ok (some dbs) => collectLinks "pubmed_pubmed" maxResults dbs

/-! ## Traversal environment and state — `routes.ts`

The traversal layer consumes the *results* of the service calls; `Env`
packages those per-pmid results (the service functions over raw wire data
are modelled above).  The sequence of upstream calls issued is recorded so
that memoization claims about "zero new upstream calls" are statable. -/

/-- One upstream call issued while serving a request: the esearch DOI
lookup, an efetch/parse of one pmid (`getPaperDetails` / `fetchPaperXml`),
or one of the two elink discoveries. -/
inductive NetCall where
  | search (doi : String)
  | fetch (pmid : String)
  | citing (pmid : String)
  | related (pmid : String)
deriving DecidableEq, Repr

/-- Per-request upstream behaviour: `search doi` is the `searchByDoi`
result, `fetchXml pmid` the `fetchPaperXml` result, `parse xml` the
`xmlParser.parsePaperXml` result, and `citing`/`related` the
`findSimilarPapers(pmid, 5)` / `getRelatedPapers(pmid, 3)` results. -/
structure Env where
  search : String → Option String
  fetchXml : String → Option String
  parse : String → Option PubMedSearchResult
  citing : String → List String
  related : String → List String

/-- `getPaperDetails` from `pubmedService.ts`: fetch the raw XML, then parse
it; `none` when either step fails. -/
def getPaperDetails (env : Env) (pmid : String) : Option PubMedSearchResult :=
  (env.fetchXml pmid).bind env.parse

/-- Mutable state shared by one traversal: the node and edge accumulators,
the visited set `processedPmids` (insertion order kept), and the trace of
upstream calls issued. -/
structure TravState where
  nodes : List NetworkNode
  edges : List NetworkEdge
  processed : List String
  calls : List NetCall
deriving DecidableEq, Repr

/-- The empty traversal state. -/
def TravState.init : TravState := { nodes := [], edges := [], processed := [], calls := [] }

/-- The ids of the emitted nodes, in emission order. -/
def nodeIds (st : TravState) : List String := st.nodes.map NetworkNode.id

/-- The pmids for which a metadata fetch/parse was issued, extracted from
the call trace. -/
def fetchIds (calls : List NetCall) : List String :=
  calls.filterMap (fun c => match c with | NetCall.fetch p => some p | _ => none)

/-- The node pushed by the interleaved `processPaper` (`routes.ts` lines
101–111): `id` is the traversal pmid, `level` the current depth. -/
def interleavedNode (pmid : String) (pd : PubMedSearchResult) (currentDepth : Nat) :
    NetworkNode :=
  { id := pmid, pmid := pd.pmid, doi := pd.doi, title := pd.title, authors := pd.authors
    journal := pd.journal, year := pd.year, citationCount := 0, level := currentDepth }

/-! ## Interleaved mode — recursive `processPaper` (`routes.ts` lines 72–142)

`processStep` is one unfolding of the recursion with the recursive call
abstracted as `rec`; `processPaper` ties the knot with a fuel argument.
Starting fuel `maxDepth + 1` is enough: every recursive call is made at
depth `currentDepth + 1 ≤ maxDepth`. -/

/-- One unfolding of `processPaper`: guard (`currentDepth > depth` or
already visited), mark visited, fetch+parse details (a failure emits no
node but keeps the id visited), push the node, and when `currentDepth <
depth` discover citing neighbors (edge neighbor → current) and related
neighbors (edge current → neighbor), recursing on each unvisited one. -/
def processStep (env : Env) (maxDepth : Nat)
    (rec : String → Nat → TravState → TravState)
    (pmid : String) (currentDepth : Nat) (st : TravState) : TravState :=
  if currentDepth > maxDepth ∨ pmid ∈ st.processed then st
  else
    let st1 : TravState :=
      { st with processed := st.processed ++ [pmid], calls := st.calls ++ [NetCall.fetch pmid] }
    match getPaperDetails env pmid with
    | none => st1
    | some pd =>
      let st2 : TravState := { st1 with nodes := st1.nodes ++ [interleavedNode pmid pd currentDepth] }
      if currentDepth < maxDepth then
        let st3 : TravState := { st2 with calls := st2.calls ++ [NetCall.citing pmid] }
        let st4 : TravState :=
          (env.citing pmid).foldl
            (fun s citingPmid =>
              if citingPmid ∈ s.processed then s
              else
                rec citingPmid (currentDepth + 1)
                  { s with edges := s.edges ++
                      [{ source := citingPmid, target := pmid, type := EdgeType.cites }] })
            st3
        let st5 : TravState := { st4 with calls := st4.calls ++ [NetCall.related pmid] }
        (env.related pmid).foldl
          (fun s relatedPmid =>
            if relatedPmid ∈ s.processed then s
            else
              rec relatedPmid (currentDepth + 1)
                { s with edges := s.edges ++
                    [{ source := pmid, target := relatedPmid, type := EdgeType.cites }] })
          st5
      else st2

/-- The interleaved recursive traversal, with fuel bounding the recursion
depth. -/
def processPaper (env : Env) (maxDepth : Nat) : Nat → String → Nat → TravState → TravState
  | 0 => fun _ _ st => st
  | fuel + 1 => processStep env maxDepth (processPaper env maxDepth fuel)

/-- The interleaved-mode traversal of one root: `processPaper(rootPmid, 0)`
with enough fuel that the depth guard, not the fuel, stops recursion. -/
def buildInterleaved (env : Env) (rootPmid : String) (maxDepth : Nat) : TravState :=
  processPaper env maxDepth (maxDepth + 1) rootPmid 0 TravState.init

/-! ## Staged mode — Phase 1 (`collectPmids`, `routes.ts` lines 294–342)

`collectPmids(pmid, d)` runs synchronously up to its first `await`: guard,
add to `allPmids`, record the level, and (when `d < depth`) suspend awaiting
`findSimilarPapers`.  The suspended work is a pending continuation; a
continuation's citing half ends by suspending again awaiting
`getRelatedPapers`.  The pool is drained FIFO, matching the microtask order
when upstream calls resolve in issuance order. -/

/-- Phase of a suspended `collectPmids` activation: waiting for its citing
links or for its related links. -/
inductive ContPhase where
  | citing
  | related
deriving DecidableEq, Repr

/-- A suspended `collectPmids(pmid, depth)` activation. -/
structure PendingCont where
  pmid : String
  depth : Nat
  phase : ContPhase
deriving DecidableEq, Repr

/-- Phase 1 state: `allPmids` (the visited set, insertion order kept), the
`pmidLevels` map, the unfiltered `collectedEdges`, the pool of pending
continuations, and the trace of upstream calls issued. -/
structure Phase1State where
  allPmids : List String
  levels : List (String × Nat)
  collectedEdges : List NetworkEdge
  pending : List PendingCont
  calls : List NetCall
deriving DecidableEq, Repr

/-- The empty Phase 1 state. -/
def Phase1State.init : Phase1State :=
  { allPmids := [], levels := [], collectedEdges := [], pending := [], calls := [] }

/-- `pmidLevels.get` — lookup in the level map. -/
def lookupLevel (levels : List (String × Nat)) (pmid : String) : Option Nat :=
  (levels.find? (fun pr => pr.1 == pmid)).map Prod.snd

/-- `pmidLevels.set` — replace an existing entry or append a new one. -/
def setLevel : List (String × Nat) → String → Nat → List (String × Nat)
  | [], pmid, lvl => [(pmid, lvl)]
  | pr :: rest, pmid, lvl =>
    if pr.1 == pmid then (pmid, lvl) :: rest else pr :: setLevel rest pmid lvl

/-- The synchronous prefix of `collectPmids(pmid, currentDepth)` (lines
294–301): return if `currentDepth > depth` or already collected; otherwise
add the pmid, record
`pmidLevels.set(pmid, Math.min(pmidLevels.get(pmid) ?? currentDepth, currentDepth))`,
and, when `currentDepth < depth`, suspend awaiting the citing links. -/
def collectPmids (maxDepth : Nat) (pmid : String) (currentDepth : Nat)
    (st : Phase1State) : Phase1State :=
  if currentDepth > maxDepth ∨ pmid ∈ st.allPmids then st
  else
    { st with
      allPmids := st.allPmids ++ [pmid]
      levels := setLevel st.levels pmid
        (min ((lookupLevel st.levels pmid).getD currentDepth) currentDepth)
      pending :=
        if currentDepth < maxDepth then
          st.pending ++ [{ pmid := pmid, depth := currentDepth, phase := ContPhase.citing }]
        else st.pending }

/-- Resume one suspended `collectPmids` activation.  The citing half (lines
304–318) pushes an edge neighbor → current for every uncollected citing
pmid and launches its synchronous prefix, then suspends awaiting the
related links; the related half (lines 320–334) pushes current → neighbor
edges the same way. -/
def runPending (env : Env) (maxDepth : Nat) (c : PendingCont) (st : Phase1State) : Phase1State :=
  match c.phase with
  | ContPhase.citing =>
    let st1 : Phase1State := { st with calls := st.calls ++ [NetCall.citing c.pmid] }
    let st2 : Phase1State :=
      (env.citing c.pmid).foldl
        (fun s citingPmid =>
          if citingPmid ∈ s.allPmids then s
          else
            collectPmids maxDepth citingPmid (c.depth + 1)
              { s with collectedEdges := s.collectedEdges ++
                  [{ source := citingPmid, target := c.pmid, type := EdgeType.cites }] })
        st1
    { st2 with pending := st2.pending ++
        [{ pmid := c.pmid, depth := c.depth, phase := ContPhase.related }] }
  | ContPhase.related =>
    let st1 : Phase1State := { st with calls := st.calls ++ [NetCall.related c.pmid] }
    (env.related c.pmid).foldl
      (fun s relatedPmid =>
        if relatedPmid ∈ s.allPmids then s
        else
          collectPmids maxDepth relatedPmid (c.depth + 1)
            { s with collectedEdges := s.collectedEdges ++
                [{ source := c.pmid, target := relatedPmid, type := EdgeType.cites }] })
      st1

/-- Drain the continuation pool FIFO.  `fuel` bounds the number of resumed
continuations; any fuel at least the total number of continuations ever
enqueued drains the pool completely. -/
def phase1Run (env : Env) (maxDepth : Nat) : Nat → Phase1State → Phase1State
  | 0, st => st
  | fuel + 1, st =>
    match st.pending with
    | [] => st
    | c :: rest => phase1Run env maxDepth fuel (runPending env maxDepth c { st with pending := rest })

/-- Phase 1 of the staged mode: `collectPmids(rootPmid, 0)` then drain. -/
def phase1 (env : Env) (rootPmid : String) (maxDepth fuel : Nat) : Phase1State :=
  phase1Run env maxDepth fuel (collectPmids maxDepth rootPmid 0 Phase1State.init)

/-! ## Staged mode — Phases 2 and 3 (`routes.ts` lines 345–420) -/

/-- Phase 2: fetch the raw XML of every collected pmid, keeping the pairs
that succeed (`xmlData`).  The batching (10 ids per batch, parallel within
a batch) only affects latency, not the resulting map. -/
def fetchXmlData (env : Env) (pmids : List String) : List (String × String) :=
  pmids.filterMap (fun pmid => (env.fetchXml pmid).map (fun xml => (pmid, xml)))

/-- The node pushed by Phase 3 (lines 399–410): `id` is the map key,
`level` is `pmidLevels.get(pmid) ?? 0`. -/
def stagedNode (pmid : String) (pd : PubMedSearchResult) (levels : List (String × Nat)) :
    NetworkNode :=
  { id := pmid, pmid := pd.pmid, doi := pd.doi, title := pd.title, authors := pd.authors
    journal := pd.journal, year := pd.year, citationCount := 0
    level := (lookupLevel levels pmid).getD 0 }

/-- One Phase 3 iteration: parse the XML; on failure skip the pmid, on
success append its node and mark it processed. -/
def phase3Step (env : Env) (levels : List (String × Nat))
    (acc : List NetworkNode × List String) (pr : String × String) :
    List NetworkNode × List String :=
  match env.parse pr.2 with
  | none => acc
  | some pd => (acc.1 ++ [stagedNode pr.1 pd levels], acc.2 ++ [pr.1])

/-- The staged-mode traversal of one root: Phase 1 link collection, Phase 2
XML fetch, Phase 3 parse-and-assemble, then the edge filter keeping only
edges whose both endpoints survived into the node list (lines 415–420). -/
def buildStaged (env : Env) (rootPmid : String) (maxDepth fuel : Nat) : TravState :=
  let p1 := phase1 env rootPmid maxDepth fuel
  let xmlData := fetchXmlData env p1.allPmids
  let np := xmlData.foldl (phase3Step env p1.levels) ([], [])
  { nodes := np.1
    edges := p1.collectedEdges.filter
      (fun e => np.2.contains e.source && np.2.contains e.target)
    processed := np.2
    calls := p1.calls ++ p1.allPmids.map NetCall.fetch }

/-! ## The route handler — `POST /api/generate-network` -/

/-- Response of the route: the network JSON, or the 404 for an unresolvable
root DOI. -/
inductive GenResponse where
  | ok (network : CitationNetwork)
  | notFound
deriving DecidableEq, Repr

/-- `storage.getCitationNetworkByRootDoi` — find a stored network keyed by
`(rootDoi, depth)`. -/
def getCitationNetworkByRootDoi (store : List CitationNetwork) (rootDoi : String)
    (depth : Nat) : Option CitationNetwork :=
  store.find? (fun nw => nw.rootDoi == rootDoi && nw.depth == depth)

/-- Package a finished traversal as the stored/returned network. -/
def assembleNetwork (doi : String) (depth : Nat) (st : TravState) : CitationNetwork :=
  { rootDoi := doi, depth := depth, nodes := st.nodes, edges := st.edges
    metadata := { totalNodes := st.nodes.length, totalEdges := st.edges.length
                  processingTime := 0, maxDepth := depth } }

/-- The interleaved-mode route handler: memoization check first (a hit is
returned unchanged with no upstream call), then root resolution (404 when
it fails), then the traversal.  The second component is the list of
upstream calls issued while serving the request. -/
def generateNetworkInterleaved (env : Env) (store : List CitationNetwork) (doi : String)
    (depth : Nat) : GenResponse × List NetCall :=
  match getCitationNetworkByRootDoi store doi depth with
  | some existing => (GenResponse.ok existing, [])
  | none =>
    match env.search doi with
    | none => (GenResponse.notFound, [NetCall.search doi])
    | some rootPmid =>
      let st := buildInterleaved env rootPmid depth
      (GenResponse.ok (assembleNetwork doi depth st), NetCall.search doi :: st.calls)

/-- The staged-mode route handler; same shell around `buildStaged`. -/
def generateNetworkStaged (env : Env) (store : List CitationNetwork) (doi : String)
    (depth fuel : Nat) : GenResponse × List NetCall :=
  match getCitationNetworkByRootDoi store doi depth with
  | some existing => (GenResponse.ok existing, [])
  | none =>
    match env.search doi with
    | none => (GenResponse.notFound, [NetCall.search doi])
    | some rootPmid =>
      let st := buildStaged env rootPmid depth fuel
      (GenResponse.ok (assembleNetwork doi depth st), NetCall.search doi :: st.calls)

/-! ## Shared correctness predicates -/

/-- An edge is consistent with the direction invariant: it was recorded
either via the citing relation (source is a citing neighbor of the node
being expanded, which is the target) or via the related relation (target is
a related neighbor of the node being expanded, which is the source). -/
def EdgeOk (env : Env) (e : NetworkEdge) : Prop :=
  e.type = EdgeType.cites ∧
    (e.source ∈ env.citing e.target ∨ e.target ∈ env.related e.source)

/-- Every edge's both endpoints appear in the final node list. -/
def edgesClosed (st : TravState) : Prop :=
  ∀ e ∈ st.edges, e.source ∈ nodeIds st ∧ e.target ∈ nodeIds st

instance (env : Env) (e : NetworkEdge) : Decidable (EdgeOk env e) := by
  unfold EdgeOk; infer_instance

instance (st : TravState) : Decidable (edgesClosed st) := by
  unfold edgesClosed; infer_instance

/-! ## Concrete environments used by witnesses and counterexamples -/

/-- The spec's worked scenario: resolving the DOI yields pmid `100`, whose
citing links are `200` and `300`, with no related links; every fetch and
parse succeeds. -/
def demoEnv : Env :=
  { search := fun _ => some "100"
    fetchXml := fun pmid => some pmid
    parse := fun xml => some { pmid := xml }
    citing := fun pmid => if pmid == "100" then ["200", "300"] else []
    related := fun _ => [] }

/-- A root `R` with one citing neighbor `B` whose record cannot be fetched:
the interleaved mode records the edge `B → R` before discovering that `B`
has no fetchable record. -/
def fetchFailEnv : Env :=
  { search := fun _ => some "R"
    fetchXml := fun pmid => if pmid == "B" then none else some pmid
    parse := fun xml => some { pmid := xml }
    citing := fun pmid => if pmid == "R" then ["B"] else []
    related := fun _ => [] }

/-- Two discovery paths to `B`: a depth-2 path `R —citing→ A —citing→ B`
whose link query resolves first, and a depth-1 path `R —related→ B`.
All fetches and parses succeed. -/
def twoPathEnv : Env :=
  { search := fun _ => some "R"
    fetchXml := fun pmid => some pmid
    parse := fun xml => some { pmid := xml }
    citing := fun pmid => if pmid == "R" then ["A"] else if pmid == "A" then ["B"] else []
    related := fun pmid => if pmid == "R" then ["B"] else [] }


/-! ## Generic helper: an invariant preserved by every fold step holds of the fold -/

theorem foldl_hold {α β : Type} (P : β → Prop) (l : List α) (f : β → α → β) (s : β)
    (h : ∀ s a, a ∈ l → P s → P (f s a)) (hs : P s) : P (l.foldl f s) := by
  induction l generalizing s with
  | nil => exact hs
  | cons a t ih =>
    exact ih (f s a) (fun s b hb => h s b (List.mem_cons_of_mem a hb))
      (h s a (List.mem_cons_self a t) hs)

/-! ## Resolver failure outcomes (claim C3) -/

/-- C3, counterexample: the claim says the two failure outcomes of the
resolver are distinguishable to the caller — `NotFound` exactly on zero
upstream matches, a distinct `Unavailable` outcome exactly on a query
failure.  In `searchByDoi` both paths return the very same `null`: the
zero-match response and the service error produce identical results. -/
theorem searchByDoi_failures_indistinguishable :
    searchByDoi (UpstreamResult.ok (some [])) = searchByDoi UpstreamResult.err ∧
    searchByDoi UpstreamResult.err = none :=
  ⟨rfl, rfl⟩

/-- C3, amended: `searchByDoi` returns the first matched id when the
upstream returns at least one match, and `none` both when the upstream
returns zero matches (or no id list) and when the query itself fails — the
two failure modes are collapsed into one outcome. -/
theorem searchByDoi_amended :
    searchByDoi UpstreamResult.err = none ∧
    searchByDoi (UpstreamResult.ok none) = none ∧
    ∀ idlist : List String, searchByDoi (UpstreamResult.ok (some idlist)) = idlist.head? :=
  ⟨rfl, rfl, fun _ => rfl⟩

/-! ## Fetcher + cache behaviour (claim C8) -/

/-- C8, counterexample: the claim asserts zero network calls and
byte-identical return for *every* id whose raw record is already present
in the cache.  The hit test `if (cachedXml)` is a truthiness check, so an
id whose cache file exists but holds the empty string (the success path
caches `response.text()` verbatim, which may be empty) is refetched: the
record for `7` is present (second conjunct), yet the call issues a network
request and returns the network payload, not the stored content. -/
theorem fetchPaperXml_empty_cached_record_refetched :
    fetchPaperXml [("7", "")] (fun _ => UpstreamResult.ok "<n/>") true "7" =
      { payload := some "<n/>", cache := [("7", "<n/>")], netCalls := ["7"] } ∧
    lookupCache [("7", "")] "7" = some "" :=
  ⟨rfl, rfl⟩

/-- C8, amended: a cache hit on a *non-empty* stored record returns exactly
the stored content with zero network calls and an unchanged cache; an id
whose cached record is absent — or present but empty, which the truthiness
hit test treats as a miss — takes the network path, and a miss with a
successful network fetch returns the payload whether or not the
best-effort cache write succeeds (the write failure is not propagated),
writing through on success and leaving the cache unchanged on a write
failure. -/
theorem fetchPaperXml_cache_behavior (cache : List (String × String))
    (net : String → UpstreamResult String) (pmid : String) :
    (∀ xml, lookupCache cache pmid = some xml → xml ≠ "" →
      ∀ writeOk, fetchPaperXml cache net writeOk pmid =
        { payload := some xml, cache := cache, netCalls := [] }) ∧
    (lookupCache cache pmid = some "" → ∀ writeOk,
      fetchPaperXml cache net writeOk pmid = fetchFromNetwork cache net writeOk pmid) ∧
    (lookupCache cache pmid = none → ∀ xml, net pmid = UpstreamResult.ok xml →
      (∀ writeOk, (fetchPaperXml cache net writeOk pmid).payload = some xml) ∧
      (fetchPaperXml cache net true pmid).cache = writeCache cache pmid xml ∧
      (fetchPaperXml cache net false pmid).cache = cache) := by
  refine ⟨?_, ?_, ?_⟩
  · intro xml hx hne writeOk
    unfold fetchPaperXml
    rw [hx]
    dsimp only
    rw [if_neg hne]
  · intro hx writeOk
    unfold fetchPaperXml
    rw [hx]
    dsimp only
    rw [if_pos rfl]
  · intro hmiss xml hnet
    refine ⟨fun writeOk => ?_, ?_, ?_⟩
    · unfold fetchPaperXml fetchFromNetwork
      rw [hmiss, hnet]
    · unfold fetchPaperXml fetchFromNetwork
      rw [hmiss, hnet]
      rfl
    · unfold fetchPaperXml fetchFromNetwork
      rw [hmiss, hnet]
      rfl

/-- C8 witness: a concrete hit on a non-empty cached record (no network
issued, stored bytes returned even though the network would fail), a
concrete present-but-empty record taking the network path, and a concrete
miss whose cache write fails yet the payload is still returned. -/
theorem fetchPaperXml_cache_behavior_witness :
    fetchPaperXml [("7", "<a/>")] (fun _ => UpstreamResult.err) true "7" =
      { payload := some "<a/>", cache := [("7", "<a/>")], netCalls := [] } ∧
    fetchPaperXml [("9", "")] (fun _ => UpstreamResult.err) true "9" =
      fetchFromNetwork [("9", "")] (fun _ => UpstreamResult.err) true "9" ∧
    (fetchPaperXml [] (fun _ => UpstreamResult.ok "<b/>") false "8").payload = some "<b/>" :=
  ⟨(fetchPaperXml_cache_behavior [("7", "<a/>")] (fun _ => UpstreamResult.err) "7").1
      "<a/>" rfl (by decide) true,
   (fetchPaperXml_cache_behavior [("9", "")] (fun _ => UpstreamResult.err) "9").2.1
      rfl true,
   ((fetchPaperXml_cache_behavior [] (fun _ => UpstreamResult.ok "<b/>") "8").2.2
      rfl "<b/>" rfl).1 false⟩

/-! ## Link-discovery truncation and degradation (claim C9) -/

/-- A linkset-db entry that the discovery loop actually consumes: matching
linkname and a present `links` field. -/
def linkMatches (name : String) (db : LinkSetDb) : Bool :=
  db.linkname == name && db.links.isSome

/-- Each consumed linkset-db contributes at most `maxResults` ids, so the
loop's result is bounded by the number of consumed entries times the
limit. -/
theorem collectLinks_foldl_length (name : String) (m : Nat) (dbs : List LinkSetDb) :
    ∀ acc : List String,
      (dbs.foldl
        (fun acc db =>
          if db.linkname == name then
            match db.links with
            | some links => acc ++ links.take m
            | none => acc
          else acc)
        acc).length ≤ acc.length + dbs.countP (linkMatches name) * m := by
  induction dbs with
  | nil => intro acc; simp
  | cons db t ih =>
    intro acc
    by_cases hn : (db.linkname == name) = true
    · cases hl : db.links with
      | some links =>
        have hc : (linkMatches name db) = true := by
          simp [linkMatches, hn, hl]
        rw [List.foldl_cons, List.countP_cons_of_pos _ _ hc, if_pos hn, hl]
        dsimp only
        have hb := ih (acc ++ links.take m)
        rw [List.length_append] at hb
        have ht : (links.take m).length ≤ m := by
          rw [List.length_take]
          exact Nat.min_le_left _ _
        have hm : (List.countP (linkMatches name) t + 1) * m
            = List.countP (linkMatches name) t * m + m := by
          rw [Nat.add_mul, Nat.one_mul]
        rw [hm]
        omega
      | none =>
        have hc : ¬ (linkMatches name db) = true := by
          simp [linkMatches, hl]
        rw [List.foldl_cons, List.countP_cons_of_neg _ _ hc, if_pos hn, hl]
        dsimp only
        exact ih acc
    · have hc : ¬ (linkMatches name db) = true := by
        simp [linkMatches, hn]
      rw [List.foldl_cons, List.countP_cons_of_neg _ _ hc, if_neg hn]
      exact ih acc

/-- C9, counterexample: the claim says each discovery call returns at most
`limit` ids.  The loop truncates *per matching linkset-db*: a response
holding two linkset-dbs with the matching linkname yields up to two times
the limit.  With limit 1 this concrete response yields 2 ids. -/
theorem findSimilarPapers_exceeds_limit :
    ¬ ((findSimilarPapers (UpstreamResult.ok (some
        [{ linkname := "pubmed_pubmed_citedin", links := some ["201"] },
         { linkname := "pubmed_pubmed_citedin", links := some ["202"] }])) 1).length ≤ 1) := by
  decide

/-- C9, amended: both discovery calls degrade to `[]` on any failure (a
service error or a response with no linkset-dbs), and each truncates every
*matching linkset-db* to the limit — so whenever the response holds at most
one matching linkset-db (the upstream's normal shape), the result holds at
most `limit` ids. -/
theorem linkDiscovery_amended (m : Nat) :
    findSimilarPapers UpstreamResult.err m = [] ∧
    findSimilarPapers (UpstreamResult.ok none) m = [] ∧
    getRelatedPapers UpstreamResult.err m = [] ∧
    getRelatedPapers (UpstreamResult.ok none) m = [] ∧
    ∀ dbs : List LinkSetDb,
      (dbs.countP (linkMatches "pubmed_pubmed_citedin") ≤ 1 →
        (findSimilarPapers (UpstreamResult.ok (some dbs)) m).length ≤ m) ∧
      (dbs.countP (linkMatches "pubmed_pubmed") ≤ 1 →
        (getRelatedPapers (UpstreamResult.ok (some dbs)) m).length ≤ m) := by
  refine ⟨rfl, rfl, rfl, rfl, fun dbs => ⟨fun h1 => ?_, fun h2 => ?_⟩⟩
  · have hb := collectLinks_foldl_length "pubmed_pubmed_citedin" m dbs []
    have : dbs.countP (linkMatches "pubmed_pubmed_citedin") * m ≤ 1 * m :=
      Nat.mul_le_mul_right m h1
    rw [Nat.one_mul] at this
    simp only [findSimilarPapers, collectLinks]
    simp only [List.length_nil, Nat.zero_add] at hb
    omega
  · have hb := collectLinks_foldl_length "pubmed_pubmed" m dbs []
    have : dbs.countP (linkMatches "pubmed_pubmed") * m ≤ 1 * m :=
      Nat.mul_le_mul_right m h2
    rw [Nat.one_mul] at this
    simp only [getRelatedPapers, collectLinks]
    simp only [List.length_nil, Nat.zero_add] at hb
    omega

/-- C9 witness: with one matching linkset-db holding six links and limit 5,
the result is truncated to at most 5 ids; a failed query yields `[]`. -/
theorem linkDiscovery_amended_witness :
    findSimilarPapers UpstreamResult.err 5 = [] ∧
    (findSimilarPapers (UpstreamResult.ok (some
      [{ linkname := "pubmed_pubmed_citedin", links := some ["1", "2", "3", "4", "5", "6"] }]))
      5).length ≤ 5 :=
  ⟨(linkDiscovery_amended 5).1,
   ((linkDiscovery_amended 5).2.2.2.2
      [{ linkname := "pubmed_pubmed_citedin", links := some ["1", "2", "3", "4", "5", "6"] }]).1
      (by decide)⟩

/-! ## Memoization short-circuit (claim C4) -/

/-- C4: when the store already holds a network for `(rootDoi, depth)`, both
traversal modes of `POST /api/generate-network` return that stored network
unchanged, and the trace of upstream calls issued while serving the request
is empty — no resolve, fetch, or link-discovery call is made. -/
theorem generateNetwork_memoized (env : Env) (store : List CitationNetwork) (doi : String)
    (depth fuel : Nat) (nw : CitationNetwork)
    (h : getCitationNetworkByRootDoi store doi depth = some nw) :
    generateNetworkInterleaved env store doi depth = (GenResponse.ok nw, []) ∧
    generateNetworkStaged env store doi depth fuel = (GenResponse.ok nw, []) := by
  unfold generateNetworkInterleaved generateNetworkStaged
  rw [h]
  exact ⟨rfl, rfl⟩

/-- A stored network used to witness the memoization short-circuit. -/
def demoStoredNetwork : CitationNetwork :=
  { rootDoi := "10.1000/x", depth := 1, nodes := [], edges := []
    metadata := { totalNodes := 0, totalEdges := 0, processingTime := 0, maxDepth := 1 } }

/-- C4 witness: a concrete store hit is returned unchanged with an empty
upstream-call trace in both modes. -/
theorem generateNetwork_memoized_witness :
    generateNetworkInterleaved demoEnv [demoStoredNetwork] "10.1000/x" 1 =
      (GenResponse.ok demoStoredNetwork, []) ∧
    generateNetworkStaged demoEnv [demoStoredNetwork] "10.1000/x" 1 5 =
      (GenResponse.ok demoStoredNetwork, []) :=
  generateNetwork_memoized demoEnv [demoStoredNetwork] "10.1000/x" 1 5 demoStoredNetwork
    (by decide)

/-! ## Interleaved-mode invariants

`InterInv` packages the facts preserved by every `processPaper` step: the
visited set is duplicate-free; every emitted node is visited and within the
depth bound; node ids are duplicate-free; every edge respects the direction
invariant with relation `cites`; and the fetch/parse trace is exactly the
visited set in order (each visited id fetched exactly once). -/

/-- Invariant of the interleaved traversal state. -/
def InterInv (env : Env) (maxDepth : Nat) (st : TravState) : Prop :=
  st.processed.Nodup ∧
  (∀ n ∈ st.nodes, n.id ∈ st.processed ∧ n.level ≤ maxDepth) ∧
  (nodeIds st).Nodup ∧
  (∀ e ∈ st.edges, EdgeOk env e) ∧
  fetchIds st.calls = st.processed

theorem fetchIds_append (a b : List NetCall) : fetchIds (a ++ b) = fetchIds a ++ fetchIds b :=
  List.filterMap_append a b _

theorem fetchIds_fetch (p : String) : fetchIds [NetCall.fetch p] = [p] := rfl

theorem fetchIds_citing (p : String) : fetchIds [NetCall.citing p] = [] := rfl

theorem fetchIds_related (p : String) : fetchIds [NetCall.related p] = [] := rfl

theorem interInv_calls_citing (env : Env) (maxDepth : Nat) (st : TravState) (p : String)
    (h : InterInv env maxDepth st) :
    InterInv env maxDepth { st with calls := st.calls ++ [NetCall.citing p] } := by
  obtain ⟨h1, h2, h3, h4, h5⟩ := h
  refine ⟨h1, h2, h3, h4, ?_⟩
  rw [fetchIds_append, fetchIds_citing, List.append_nil]
  exact h5

theorem interInv_calls_related (env : Env) (maxDepth : Nat) (st : TravState) (p : String)
    (h : InterInv env maxDepth st) :
    InterInv env maxDepth { st with calls := st.calls ++ [NetCall.related p] } := by
  obtain ⟨h1, h2, h3, h4, h5⟩ := h
  refine ⟨h1, h2, h3, h4, ?_⟩
  rw [fetchIds_append, fetchIds_related, List.append_nil]
  exact h5

/-- Marking an unvisited id visited (and tracing its fetch) preserves the
invariant. -/
theorem interInv_mark (env : Env) (maxDepth : Nat) (st : TravState) (p : String)
    (h : InterInv env maxDepth st) (hp : p ∉ st.processed) :
    InterInv env maxDepth
      { st with processed := st.processed ++ [p], calls := st.calls ++ [NetCall.fetch p] } := by
  obtain ⟨h1, h2, h3, h4, h5⟩ := h
  refine ⟨?_, ?_, h3, h4, ?_⟩
  · simp [List.nodup_append, h1, hp]
  · intro n hn
    exact ⟨List.mem_append_left _ (h2 n hn).1, (h2 n hn).2⟩
  · rw [fetchIds_append, fetchIds_fetch, h5]

/-- Pushing the node of a visited id that has no node yet preserves the
invariant, provided its level is within the depth bound. -/
theorem interInv_push_node (env : Env) (maxDepth : Nat) (st : TravState) (p : String)
    (pd : PubMedSearchResult) (d : Nat) (h : InterInv env maxDepth st)
    (hp : p ∈ st.processed) (hq : p ∉ nodeIds st) (hd : d ≤ maxDepth) :
    InterInv env maxDepth { st with nodes := st.nodes ++ [interleavedNode p pd d] } := by
  obtain ⟨h1, h2, h3, h4, h5⟩ := h
  refine ⟨h1, ?_, ?_, h4, h5⟩
  · intro n hn
    rcases List.mem_append.mp hn with hn | hn
    · exact h2 n hn
    · rcases List.mem_singleton.mp hn with rfl
      exact ⟨hp, hd⟩
  · have : nodeIds { st with nodes := st.nodes ++ [interleavedNode p pd d] }
        = nodeIds st ++ [p] := by
      simp [nodeIds, interleavedNode]
    rw [this]
    simp [List.nodup_append, h3, hq]

/-- Recording an edge consistent with the direction invariant preserves the
invariant. -/
theorem interInv_push_edge (env : Env) (maxDepth : Nat) (st : TravState) (e : NetworkEdge)
    (h : InterInv env maxDepth st) (he : EdgeOk env e) :
    InterInv env maxDepth { st with edges := st.edges ++ [e] } := by
  obtain ⟨h1, h2, h3, h4, h5⟩ := h
  refine ⟨h1, h2, h3, ?_, h5⟩
  intro x hx
  rcases List.mem_append.mp hx with hx | hx
  · exact h4 x hx
  · rcases List.mem_singleton.mp hx with rfl
    exact he

/-- One `processStep` unfolding preserves the invariant whenever the
abstracted recursive call does. -/
theorem processStep_inv (env : Env) (maxDepth : Nat)
    (rec : String → Nat → TravState → TravState)
    (hrec : ∀ p d st, InterInv env maxDepth st → InterInv env maxDepth (rec p d st)) :
    ∀ p d st, InterInv env maxDepth st →
      InterInv env maxDepth (processStep env maxDepth rec p d st) := by
  intro p d st h
  unfold processStep
  split
  · exact h
  · rename_i hg
    push_neg at hg
    obtain ⟨hd, hp⟩ := hg
    dsimp only
    have h1 : InterInv env maxDepth
        { st with processed := st.processed ++ [p], calls := st.calls ++ [NetCall.fetch p] } :=
      interInv_mark env maxDepth st p h hp
    cases hpd : getPaperDetails env p with
    | none => exact h1
    | some pd =>
      dsimp only
      have hq : p ∉ nodeIds st := fun hmem => by
        rcases List.mem_map.mp hmem with ⟨n, hn, hid⟩
        exact hp (hid ▸ (h.2.1 n hn).1)
      have h2 : InterInv env maxDepth
          { st with processed := st.processed ++ [p], calls := st.calls ++ [NetCall.fetch p]
                    nodes := st.nodes ++ [interleavedNode p pd d] } :=
        interInv_push_node env maxDepth _ p pd d h1 (List.mem_append_right _ (by simp)) hq hd
      split
      · rename_i hlt
        refine foldl_hold (InterInv env maxDepth) _ _ _ ?_ ?_
        · intro s r hr hs
          dsimp only
          split
          · exact hs
          · exact hrec r (d + 1)
              { s with edges := s.edges ++ [{ source := p, target := r, type := EdgeType.cites }] }
              (interInv_push_edge env maxDepth s _ hs ⟨rfl, Or.inr hr⟩)
        · refine interInv_calls_related env maxDepth _ p ?_
          refine foldl_hold (InterInv env maxDepth) _ _ _ ?_ ?_
          · intro s c hc hs
            dsimp only
            split
            · exact hs
            · exact hrec c (d + 1)
                { s with edges := s.edges ++ [{ source := c, target := p, type := EdgeType.cites }] }
                (interInv_push_edge env maxDepth s _ hs ⟨rfl, Or.inl hc⟩)
          · exact interInv_calls_citing env maxDepth _ p h2
      · exact h2

/-- The interleaved traversal preserves the invariant for every fuel. -/
theorem processPaper_inv (env : Env) (maxDepth : Nat) :
    ∀ fuel p d st, InterInv env maxDepth st →
      InterInv env maxDepth (processPaper env maxDepth fuel p d st) := by
  intro fuel
  induction fuel with
  | zero => intro p d st h; exact h
  | succ fuel ih => exact processStep_inv env maxDepth _ ih

/-- The invariant holds of the empty state, hence of every interleaved
traversal result. -/
theorem buildInterleaved_inv (env : Env) (rootPmid : String) (maxDepth : Nat) :
    InterInv env maxDepth (buildInterleaved env rootPmid maxDepth) := by
  refine processPaper_inv env maxDepth _ rootPmid 0 TravState.init ?_
  refine ⟨List.nodup_nil, ?_, List.nodup_nil, ?_, rfl⟩ <;> intro x hx <;> cases hx

/-! ## Staged-mode invariants

Phase 1 maintains: the collected id set is duplicate-free, every recorded
level is within the depth bound, every collected edge respects the
direction invariant, and no fetch is issued (Phase 1 is pure link
traversal). -/

/-- Invariant of the Phase 1 state. -/
def P1Inv (env : Env) (maxDepth : Nat) (st : Phase1State) : Prop :=
  st.allPmids.Nodup ∧
  (∀ pr ∈ st.levels, pr.2 ≤ maxDepth) ∧
  (∀ e ∈ st.collectedEdges, EdgeOk env e) ∧
  fetchIds st.calls = []

/-- `setLevel` keeps every stored level below a bound when the written
value is. -/
theorem setLevel_le (m : Nat) : ∀ (ls : List (String × Nat)) (p : String) (v : Nat),
    (∀ pr ∈ ls, pr.2 ≤ m) → v ≤ m → ∀ pr ∈ setLevel ls p v, pr.2 ≤ m := by
  intro ls
  induction ls with
  | nil =>
    intro p v h hv pr hpr
    rcases List.mem_singleton.mp hpr with rfl
    exact hv
  | cons q rest ih =>
    intro p v h hv pr hpr
    unfold setLevel at hpr
    split at hpr
    · rcases List.mem_cons.mp hpr with rfl | hm
      · exact hv
      · exact h _ (List.mem_cons_of_mem _ hm)
    · rcases List.mem_cons.mp hpr with rfl | hm
      · exact h _ (List.mem_cons_self _ _)
      · exact ih p v (fun x hx => h x (List.mem_cons_of_mem _ hx)) hv pr hm

/-- A successful `lookupLevel` returns a value stored in the map. -/
theorem lookupLevel_mem (ls : List (String × Nat)) (p : String) (v : Nat)
    (h : lookupLevel ls p = some v) : ∃ pr ∈ ls, pr.2 = v := by
  unfold lookupLevel at h
  cases hf : ls.find? (fun pr => pr.1 == p) with
  | none => rw [hf] at h; cases h
  | some pr =>
    rw [hf] at h
    exact ⟨pr, List.mem_of_find?_eq_some hf, Option.some_injective _ h⟩

/-- The synchronous prefix of `collectPmids` preserves the Phase 1
invariant. -/
theorem collectPmids_inv (env : Env) (maxDepth : Nat) (pmid : String) (d : Nat)
    (st : Phase1State) (h : P1Inv env maxDepth st) :
    P1Inv env maxDepth (collectPmids maxDepth pmid d st) := by
  unfold collectPmids
  split
  · exact h
  · rename_i hg
    push_neg at hg
    obtain ⟨hd, hp⟩ := hg
    obtain ⟨h1, h2, h3, h4⟩ := h
    refine ⟨?_, ?_, h3, h4⟩
    · simp [List.nodup_append, h1, hp]
    · exact setLevel_le maxDepth st.levels pmid _ h2
        (Nat.le_trans (Nat.min_le_right _ _) hd)

theorem p1Inv_push_edge (env : Env) (maxDepth : Nat) (st : Phase1State) (e : NetworkEdge)
    (h : P1Inv env maxDepth st) (he : EdgeOk env e) :
    P1Inv env maxDepth { st with collectedEdges := st.collectedEdges ++ [e] } := by
  obtain ⟨h1, h2, h3, h4⟩ := h
  refine ⟨h1, h2, ?_, h4⟩
  intro x hx
  rcases List.mem_append.mp hx with hx | hx
  · exact h3 x hx
  · rcases List.mem_singleton.mp hx with rfl
    exact he

theorem p1Inv_calls_citing (env : Env) (maxDepth : Nat) (st : Phase1State) (p : String)
    (h : P1Inv env maxDepth st) :
    P1Inv env maxDepth { st with calls := st.calls ++ [NetCall.citing p] } := by
  obtain ⟨h1, h2, h3, h4⟩ := h
  refine ⟨h1, h2, h3, ?_⟩
  rw [fetchIds_append, fetchIds_citing, List.append_nil]
  exact h4

theorem p1Inv_calls_related (env : Env) (maxDepth : Nat) (st : Phase1State) (p : String)
    (h : P1Inv env maxDepth st) :
    P1Inv env maxDepth { st with calls := st.calls ++ [NetCall.related p] } := by
  obtain ⟨h1, h2, h3, h4⟩ := h
  refine ⟨h1, h2, h3, ?_⟩
  rw [fetchIds_append, fetchIds_related, List.append_nil]
  exact h4

theorem p1Inv_pending (env : Env) (maxDepth : Nat) (st : Phase1State)
    (pd : List PendingCont) (h : P1Inv env maxDepth st) :
    P1Inv env maxDepth { st with pending := pd } := h

/-- Resuming one suspended activation preserves the Phase 1 invariant. -/
theorem runPending_inv (env : Env) (maxDepth : Nat) (c : PendingCont) (st : Phase1State)
    (h : P1Inv env maxDepth st) : P1Inv env maxDepth (runPending env maxDepth c st) := by
  unfold runPending
  cases c.phase with
  | citing =>
    dsimp only
    refine p1Inv_pending env maxDepth _ _ ?_
    refine foldl_hold (P1Inv env maxDepth) _ _ _ ?_ ?_
    · intro s n hn hs
      dsimp only
      split
      · exact hs
      · exact collectPmids_inv env maxDepth n (c.depth + 1) _
          (p1Inv_push_edge env maxDepth s _ hs ⟨rfl, Or.inl hn⟩)
    · exact p1Inv_calls_citing env maxDepth st c.pmid h
  | related =>
    dsimp only
    refine foldl_hold (P1Inv env maxDepth) _ _ _ ?_ ?_
    · intro s n hn hs
      dsimp only
      split
      · exact hs
      · exact collectPmids_inv env maxDepth n (c.depth + 1) _
          (p1Inv_push_edge env maxDepth s _ hs ⟨rfl, Or.inr hn⟩)
    · exact p1Inv_calls_related env maxDepth st c.pmid h

/-- Draining the continuation pool preserves the Phase 1 invariant. -/
theorem phase1Run_inv (env : Env) (maxDepth : Nat) :
    ∀ fuel st, P1Inv env maxDepth st → P1Inv env maxDepth (phase1Run env maxDepth fuel st) := by
  intro fuel
  induction fuel with
  | zero => intro st h; exact h
  | succ fuel ih =>
    intro st h
    unfold phase1Run
    split
    · exact h
    · exact ih _ (runPending_inv env maxDepth _ _ (p1Inv_pending env maxDepth st _ h))

/-- The Phase 1 invariant holds of every completed (or partial) Phase 1
run. -/
theorem phase1_inv (env : Env) (rootPmid : String) (maxDepth fuel : Nat) :
    P1Inv env maxDepth (phase1 env rootPmid maxDepth fuel) := by
  refine phase1Run_inv env maxDepth fuel _ ?_
  refine collectPmids_inv env maxDepth rootPmid 0 Phase1State.init ?_
  exact ⟨List.nodup_nil, fun x hx => absurd hx (List.not_mem_nil x),
    fun x hx => absurd hx (List.not_mem_nil x), rfl⟩

/-! ## Phase 3 characterization -/

/-- The nodes Phase 3 produces from the fetched XML pairs. -/
def phase3Nodes (env : Env) (levels : List (String × Nat)) (xs : List (String × String)) :
    List NetworkNode :=
  xs.filterMap (fun pr => (env.parse pr.2).map (fun pd => stagedNode pr.1 pd levels))

/-- The ids Phase 3 marks processed: the fetched pmids whose XML parses. -/
def phase3Ids (env : Env) (xs : List (String × String)) : List String :=
  xs.filterMap (fun pr => (env.parse pr.2).map (fun _ => pr.1))

/-- The Phase 3 fold computes exactly the parsed nodes and their ids. -/
theorem phase3_foldl (env : Env) (levels : List (String × Nat)) :
    ∀ (xs : List (String × String)) (ns : List NetworkNode) (ps : List String),
      xs.foldl (phase3Step env levels) (ns, ps) =
        (ns ++ phase3Nodes env levels xs, ps ++ phase3Ids env xs) := by
  intro xs
  induction xs with
  | nil => intro ns ps; simp [phase3Nodes, phase3Ids]
  | cons x t ih =>
    intro ns ps
    rw [List.foldl_cons]
    cases hx : env.parse x.2 with
    | none =>
      have hstep : phase3Step env levels (ns, ps) x = (ns, ps) := by
        unfold phase3Step
        rw [hx]
      rw [hstep, ih ns ps]
      unfold phase3Nodes phase3Ids
      rw [List.filterMap_cons_none (by rw [hx]; rfl), List.filterMap_cons_none (by rw [hx]; rfl)]
    | some pd =>
      have hstep : phase3Step env levels (ns, ps) x =
          (ns ++ [stagedNode x.1 pd levels], ps ++ [x.1]) := by
        unfold phase3Step
        rw [hx]
      rw [hstep, ih]
      unfold phase3Nodes phase3Ids
      rw [List.filterMap_cons_some (by rw [hx]; rfl), List.filterMap_cons_some (by rw [hx]; rfl)]
      simp [phase3Nodes, phase3Ids]
  
/-- The ids of the Phase 3 nodes are exactly the processed ids, in order. -/
theorem phase3Nodes_map_id (env : Env) (levels : List (String × Nat)) :
    ∀ xs : List (String × String),
      (phase3Nodes env levels xs).map NetworkNode.id = phase3Ids env xs := by
  intro xs
  induction xs with
  | nil => rfl
  | cons x t ih =>
    cases hx : env.parse x.2 with
    | none =>
      unfold phase3Nodes phase3Ids
      rw [List.filterMap_cons_none (by rw [hx]; rfl), List.filterMap_cons_none (by rw [hx]; rfl)]
      exact ih
    | some pd =>
      unfold phase3Nodes phase3Ids
      rw [List.filterMap_cons_some (by rw [hx]; rfl), List.filterMap_cons_some (by rw [hx]; rfl)]
      rw [List.map_cons]
      exact congrArg (List.cons x.1) ih

/-- The processed ids form a sublist of the fetched pmids. -/
theorem phase3Ids_sublist (env : Env) :
    ∀ xs : List (String × String), (phase3Ids env xs).Sublist (xs.map Prod.fst) := by
  intro xs
  induction xs with
  | nil => exact List.Sublist.refl []
  | cons x t ih =>
    cases hx : env.parse x.2 with
    | none =>
      unfold phase3Ids
      rw [List.filterMap_cons_none (by rw [hx]; rfl), List.map_cons]
      exact List.Sublist.cons x.1 ih
    | some pd =>
      unfold phase3Ids
      rw [List.filterMap_cons_some (by rw [hx]; rfl), List.map_cons]
      exact List.Sublist.cons₂ x.1 ih

/-- The fetched pmids form a sublist of the collected pmids. -/
theorem fetchXmlData_fst_sublist (env : Env) :
    ∀ pmids : List String, ((fetchXmlData env pmids).map Prod.fst).Sublist pmids := by
  intro pmids
  induction pmids with
  | nil => exact List.Sublist.refl []
  | cons p t ih =>
    unfold fetchXmlData
    cases hx : env.fetchXml p with
    | none =>
      rw [List.filterMap_cons_none (by rw [hx]; rfl)]
      exact List.Sublist.cons p ih
    | some xml =>
      rw [List.filterMap_cons_some (by rw [hx]; rfl), List.map_cons]
      exact List.Sublist.cons₂ p ih

/-- Every Phase 3 node's level is bounded by the levels stored in the
map. -/
theorem phase3Nodes_level_le (env : Env) (levels : List (String × Nat)) (maxDepth : Nat)
    (hlv : ∀ pr ∈ levels, pr.2 ≤ maxDepth) :
    ∀ xs : List (String × String), ∀ n ∈ phase3Nodes env levels xs, n.level ≤ maxDepth := by
  intro xs n hn
  rcases List.mem_filterMap.mp hn with ⟨pr, hpr, hmap⟩
  cases hx : env.parse pr.2 with
  | none => rw [hx] at hmap; cases hmap
  | some pd =>
    rw [hx] at hmap
    simp only [Option.map_some'] at hmap
    have : n = stagedNode pr.1 pd levels := (Option.some_injective _ hmap).symm
    rw [this]
    unfold stagedNode
    cases hl : lookupLevel levels pr.1 with
    | none => exact Nat.zero_le _
    | some v =>
      rcases lookupLevel_mem levels pr.1 v hl with ⟨qr, hq, hv⟩
      simp only [Option.getD_some]
      exact hv ▸ hlv qr hq

/-- `buildStaged`, written via the Phase 3 characterization. -/
theorem buildStaged_def (env : Env) (rootPmid : String) (maxDepth fuel : Nat) :
    buildStaged env rootPmid maxDepth fuel =
      { nodes := phase3Nodes env (phase1 env rootPmid maxDepth fuel).levels
          (fetchXmlData env (phase1 env rootPmid maxDepth fuel).allPmids)
        edges := (phase1 env rootPmid maxDepth fuel).collectedEdges.filter
          (fun e =>
            (phase3Ids env (fetchXmlData env
              (phase1 env rootPmid maxDepth fuel).allPmids)).contains e.source &&
            (phase3Ids env (fetchXmlData env
              (phase1 env rootPmid maxDepth fuel).allPmids)).contains e.target)
        processed := phase3Ids env (fetchXmlData env (phase1 env rootPmid maxDepth fuel).allPmids)
        calls := (phase1 env rootPmid maxDepth fuel).calls ++
          (phase1 env rootPmid maxDepth fuel).allPmids.map NetCall.fetch } := by
  unfold buildStaged
  dsimp only
  rw [phase3_foldl]
  simp

/-- The staged node list's ids are exactly the processed ids. -/
theorem buildStaged_nodeIds (env : Env) (rootPmid : String) (maxDepth fuel : Nat) :
    nodeIds (buildStaged env rootPmid maxDepth fuel) =
      (buildStaged env rootPmid maxDepth fuel).processed := by
  rw [buildStaged_def]
  exact phase3Nodes_map_id env _ _

/-- The staged processed set is duplicate-free. -/
theorem buildStaged_processed_nodup (env : Env) (rootPmid : String) (maxDepth fuel : Nat) :
    (buildStaged env rootPmid maxDepth fuel).processed.Nodup := by
  rw [buildStaged_def]
  exact ((phase3Ids_sublist env _).trans (fetchXmlData_fst_sublist env _)).nodup
    (phase1_inv env rootPmid maxDepth fuel).1

/-- Every staged node's level is within the requested depth. -/
theorem buildStaged_level_le (env : Env) (rootPmid : String) (maxDepth fuel : Nat) :
    ∀ n ∈ (buildStaged env rootPmid maxDepth fuel).nodes, n.level ≤ maxDepth := by
  rw [buildStaged_def]
  exact phase3Nodes_level_le env _ maxDepth (phase1_inv env rootPmid maxDepth fuel).2.1 _

/-- The staged edge filter guarantees both endpoints of every surviving
edge appear in the node list. -/
theorem buildStaged_edgesClosed (env : Env) (rootPmid : String) (maxDepth fuel : Nat) :
    edgesClosed (buildStaged env rootPmid maxDepth fuel) := by
  intro e he
  rw [buildStaged_nodeIds]
  rw [buildStaged_def] at he
  rcases List.mem_filter.mp he with ⟨_, hpred⟩
  simp only [Bool.and_eq_true] at hpred
  rcases hpred with ⟨hs, ht⟩
  rw [buildStaged_def]
  exact ⟨List.elem_iff.mp hs, List.elem_iff.mp ht⟩

/-- Every staged edge respects the direction invariant with relation
`cites`. -/
theorem buildStaged_edges_ok (env : Env) (rootPmid : String) (maxDepth fuel : Nat) :
    ∀ e ∈ (buildStaged env rootPmid maxDepth fuel).edges, EdgeOk env e := by
  intro e he
  rw [buildStaged_def] at he
  rcases List.mem_filter.mp he with ⟨hmem, _⟩
  exact (phase1_inv env rootPmid maxDepth fuel).2.2.1 e hmem

theorem fetchIds_map_fetch : ∀ l : List String, fetchIds (l.map NetCall.fetch) = l := by
  intro l
  induction l with
  | nil => rfl
  | cons p t ih =>
    unfold fetchIds at ih ⊢
    rw [List.map_cons, List.filterMap_cons]
    dsimp only
    rw [ih]

/-- The staged fetch trace is exactly the collected id set: every collected
id is fetched exactly once (Phase 1 issues no fetch at all). -/
theorem buildStaged_fetch_trace (env : Env) (rootPmid : String) (maxDepth fuel : Nat) :
    fetchIds (buildStaged env rootPmid maxDepth fuel).calls =
      (phase1 env rootPmid maxDepth fuel).allPmids := by
  rw [buildStaged_def]
  dsimp only
  rw [fetchIds_append, (phase1_inv env rootPmid maxDepth fuel).2.2.2, List.nil_append]
  exact fetchIds_map_fetch _

/-! ## Interleaved-mode edge closure under a total fetch oracle

Interleaved mode records each discovered edge *before* recursing into the
neighbor, and never filters the edge list; a neighbor whose fetch or parse
fails therefore leaves a dangling edge.  When every fetch+parse succeeds
the recursion emits the neighbor's node immediately after the edge, and the
edge list stays closed. -/

/-- Nodes and the visited set only grow under one abstracted recursive
call. -/
theorem processStep_subset (env : Env) (maxDepth : Nat)
    (rec : String → Nat → TravState → TravState)
    (hrec : ∀ p d st, st.nodes ⊆ (rec p d st).nodes ∧ st.processed ⊆ (rec p d st).processed) :
    ∀ p d st, st.nodes ⊆ (processStep env maxDepth rec p d st).nodes ∧
      st.processed ⊆ (processStep env maxDepth rec p d st).processed := by
  intro p d st
  unfold processStep
  split
  · exact ⟨List.Subset.refl _, List.Subset.refl _⟩
  · dsimp only
    cases hpd : getPaperDetails env p with
    | none => exact ⟨List.Subset.refl _, List.subset_append_left _ _⟩
    | some pd =>
      dsimp only
      split
      · refine foldl_hold
          (fun s : TravState => st.nodes ⊆ s.nodes ∧ st.processed ⊆ s.processed) _ _ _ ?_ ?_
        · intro s r hr hs
          dsimp only
          split
          · exact hs
          · have h2 := hrec r (d + 1)
              { s with edges := s.edges ++ [{ source := p, target := r, type := EdgeType.cites }] }
            exact ⟨hs.1.trans h2.1, hs.2.trans h2.2⟩
        · refine foldl_hold
            (fun s : TravState => st.nodes ⊆ s.nodes ∧ st.processed ⊆ s.processed) _ _ _ ?_ ?_
          · intro s c hc hs
            dsimp only
            split
            · exact hs
            · have h2 := hrec c (d + 1)
                { s with edges := s.edges ++ [{ source := c, target := p, type := EdgeType.cites }] }
              exact ⟨hs.1.trans h2.1, hs.2.trans h2.2⟩
          · exact ⟨List.subset_append_left _ _, List.subset_append_left _ _⟩
      · exact ⟨List.subset_append_left _ _, List.subset_append_left _ _⟩

/-- Nodes and the visited set only grow under the interleaved traversal. -/
theorem processPaper_subset (env : Env) (maxDepth : Nat) :
    ∀ fuel p d st, st.nodes ⊆ (processPaper env maxDepth fuel p d st).nodes ∧
      st.processed ⊆ (processPaper env maxDepth fuel p d st).processed := by
  intro fuel
  induction fuel with
  | zero => intro p d st; exact ⟨List.Subset.refl _, List.Subset.refl _⟩
  | succ fuel ih => exact processStep_subset env maxDepth _ ih

/-- Every visited id has its node emitted, and every recorded edge has both
endpoints emitted — except that endpoints equal to the id about to be
processed may still be pending. -/
def ClosedExcept (st : TravState) (p : String) : Prop :=
  (∀ q ∈ st.processed, q ∈ nodeIds st) ∧
  ∀ e ∈ st.edges, (e.source ∈ nodeIds st ∨ e.source = p) ∧
    (e.target ∈ nodeIds st ∨ e.target = p)

/-- Every visited id has its node emitted and every recorded edge has both
endpoints emitted. -/
def ClosedFull (st : TravState) : Prop :=
  (∀ q ∈ st.processed, q ∈ nodeIds st) ∧
  ∀ e ∈ st.edges, e.source ∈ nodeIds st ∧ e.target ∈ nodeIds st

/-- With a total fetch+parse oracle and enough fuel, processing id `p`
closes the one allowed dangling endpoint: either `p` was already visited
(then its node already exists) or its node is emitted by this call. -/
theorem processPaper_closed (env : Env) (maxDepth : Nat)
    (hok : ∀ q, (getPaperDetails env q).isSome) :
    ∀ fuel p d st, d ≤ maxDepth → maxDepth + 1 ≤ fuel + d → ClosedExcept st p →
      ClosedFull (processPaper env maxDepth fuel p d st) := by
  intro fuel
  induction fuel with
  | zero =>
    intro p d st hd hf h
    omega
  | succ fuel ih =>
    intro p d st hd hf h
    have heq : processPaper env maxDepth (fuel + 1) = processStep env maxDepth
        (processPaper env maxDepth fuel) := rfl
    rw [heq]
    unfold processStep
    split
    · rename_i hg
      rcases hg with hg | hg
      · omega
      · obtain ⟨hA, hB⟩ := h
        refine ⟨hA, fun e he => ?_⟩
        obtain ⟨hsrc, htgt⟩ := hB e he
        constructor
        · rcases hsrc with hs | hs
          · exact hs
          · rw [hs]; exact hA p hg
        · rcases htgt with ht | ht
          · exact ht
          · rw [ht]; exact hA p hg
    · rename_i hg
      push_neg at hg
      obtain ⟨hd2, hp⟩ := hg
      dsimp only
      cases hpd : getPaperDetails env p with
      | none =>
        have := hok p
        rw [hpd] at this
        cases this
      | some pd =>
        dsimp only
        have hids : nodeIds { st with
            processed := st.processed ++ [p], calls := st.calls ++ [NetCall.fetch p]
            nodes := st.nodes ++ [interleavedNode p pd d] } = nodeIds st ++ [p] := by
          simp [nodeIds, interleavedNode]
        have h2 : ClosedFull { st with
            processed := st.processed ++ [p], calls := st.calls ++ [NetCall.fetch p]
            nodes := st.nodes ++ [interleavedNode p pd d] } := by
          constructor
          · intro q hq
            rw [hids]
            rcases List.mem_append.mp hq with hq | hq
            · exact List.mem_append_left _ (h.1 q hq)
            · exact List.mem_append_right _ hq
          · intro e he
            obtain ⟨hsrc, htgt⟩ := h.2 e he
            rw [hids]
            constructor
            · rcases hsrc with hs | hs
              · exact List.mem_append_left _ hs
              · rw [hs]; exact List.mem_append_right _ (List.mem_singleton.mpr rfl)
            · rcases htgt with ht | ht
              · exact List.mem_append_left _ ht
              · rw [ht]; exact List.mem_append_right _ (List.mem_singleton.mpr rfl)
        have hpin : p ∈ nodeIds { st with
            processed := st.processed ++ [p], calls := st.calls ++ [NetCall.fetch p]
            nodes := st.nodes ++ [interleavedNode p pd d] } := by
          rw [hids]
          exact List.mem_append_right _ (List.mem_singleton.mpr rfl)
        split
        · rename_i hlt
          refine (foldl_hold (fun s : TravState => ClosedFull s ∧ p ∈ nodeIds s) _ _ _ ?_ ?_).1
          · intro s r hr hs
            dsimp only
            split
            · exact hs
            · have hmono := processPaper_subset env maxDepth fuel r (d + 1)
                { s with edges := s.edges ++
                    [{ source := p, target := r, type := EdgeType.cites }] }
              constructor
              · refine ih r (d + 1) _ hlt (by omega) ?_
                refine ⟨hs.1.1, fun e he => ?_⟩
                rcases List.mem_append.mp he with he | he
                · obtain ⟨hsrc, htgt⟩ := hs.1.2 e he
                  exact ⟨Or.inl hsrc, Or.inl htgt⟩
                · rcases List.mem_singleton.mp he with rfl
                  exact ⟨Or.inl hs.2, Or.inr rfl⟩
              · exact List.map_subset NetworkNode.id hmono.1 hs.2
          · refine (foldl_hold (fun s : TravState => ClosedFull s ∧ p ∈ nodeIds s) _ _ _ ?_ ?_)
            · intro s c hc hs
              dsimp only
              split
              · exact hs
              · have hmono := processPaper_subset env maxDepth fuel c (d + 1)
                  { s with edges := s.edges ++
                      [{ source := c, target := p, type := EdgeType.cites }] }
                constructor
                · refine ih c (d + 1) _ hlt (by omega) ?_
                  refine ⟨hs.1.1, fun e he => ?_⟩
                  rcases List.mem_append.mp he with he | he
                  · obtain ⟨hsrc, htgt⟩ := hs.1.2 e he
                    exact ⟨Or.inl hsrc, Or.inl htgt⟩
                  · rcases List.mem_singleton.mp he with rfl
                    exact ⟨Or.inr rfl, Or.inl hs.2⟩
                · exact List.map_subset NetworkNode.id hmono.1 hs.2
            · exact ⟨h2, hpin⟩
        · exact h2

/-- With a total fetch+parse oracle, the interleaved traversal's edge list
is closed: both endpoints of every edge appear in the node list. -/
theorem buildInterleaved_closed (env : Env) (rootPmid : String) (maxDepth : Nat)
    (hok : ∀ q, (getPaperDetails env q).isSome) :
    edgesClosed (buildInterleaved env rootPmid maxDepth) := by
  have h := processPaper_closed env maxDepth hok (maxDepth + 1) rootPmid 0 TravState.init
    (Nat.zero_le _) (by omega)
    ⟨fun q hq => absurd hq (List.not_mem_nil q), fun e he => absurd he (List.not_mem_nil e)⟩
  exact fun e he => h.2 e he

/-! ## Claim theorems -/

/-- C1, counterexample: the claim asserts the endpoint-closure invariant in
*either* traversal mode.  Interleaved mode records an edge before recursing
into the neighbor and never filters the edge list, so a neighbor whose
fetch fails leaves a dangling edge: with root `R`, citing neighbor `B`, and
`B`'s record unfetchable, the returned network has the edge `B → R` but
only the node `R`. -/
theorem c1_interleaved_dangling_edge :
    ¬ edgesClosed (buildInterleaved fetchFailEnv "R" 1) ∧
    (buildInterleaved fetchFailEnv "R" 1).edges =
      [{ source := "B", target := "R", type := EdgeType.cites }] ∧
    nodeIds (buildInterleaved fetchFailEnv "R" 1) = ["R"] := by
  refine ⟨?_, by decide, by decide⟩
  decide

/-- C1, amended: in staged mode every edge in the final edge list has both
endpoints in the final node list, unconditionally (the Phase 3 filter
guarantees it); in interleaved mode the same holds provided the metadata
fetch+parse succeeds for every visited id. -/
theorem c1_edge_endpoints_in_nodes :
    (∀ (env : Env) (root : String) (d fuel : Nat), edgesClosed (buildStaged env root d fuel)) ∧
    (∀ (env : Env) (root : String) (d : Nat), (∀ q, (getPaperDetails env q).isSome) →
      edgesClosed (buildInterleaved env root d)) :=
  ⟨fun env root d fuel => buildStaged_edgesClosed env root d fuel,
   fun env root d hok => buildInterleaved_closed env root d hok⟩

/-- C1 witness: in the spec's demo scenario every fetch succeeds, and the
edge `200 → 100` recorded by the interleaved traversal has its source
emitted as a node. -/
theorem c1_edge_endpoints_in_nodes_witness :
    ("200" : String) ∈ nodeIds (buildInterleaved demoEnv "100" 1) :=
  ((c1_edge_endpoints_in_nodes.2 demoEnv "100" 1 (fun _ => rfl))
    { source := "200", target := "100", type := EdgeType.cites } (by decide)).1

/-- C2: evaluation of the staged traversal at the failing input.  In
`twoPathEnv` the id `B` is reachable from the root both by the depth-2 path
`R → A → B` (citing links) and by the depth-1 path `R → B` (`B` is among
the root's related links, third conjunct), so the true minimum depth is 1.
Phase 1 completes (second conjunct: no pending work is left), yet the
final node list records level 2 for `B`: the first discovery path wins,
because `collectPmids` returns early for an id already in `allPmids`, which
makes the `Math.min(pmidLevels.get(pmid) ?? d, d)` update unreachable for
every re-discovery. -/
theorem c2_staged_level_not_minimum :
    (buildStaged twoPathEnv "R" 2 10).nodes.map (fun n => (n.id, n.level)) =
      [("R", 0), ("A", 1), ("B", 2)] ∧
    (phase1 twoPathEnv "R" 2 10).pending = [] ∧
    "B" ∈ twoPathEnv.related "R" ∧
    lookupLevel (phase1 twoPathEnv "R" 2 10).levels "R" = some 0 := by
  refine ⟨by decide, by decide, by decide, by decide⟩

/-- C5: every edge emitted by either traversal mode is consistent with the
direction invariant — an edge discovered via the citing relation has its
source among the citing links of its target (neighbor → current), and an
edge discovered via the related relation has its target among the related
links of its source (current → neighbor) — and carries relation `cites`. -/
theorem c5_edge_direction :
    (∀ (env : Env) (root : String) (d : Nat),
      ∀ e ∈ (buildInterleaved env root d).edges, EdgeOk env e) ∧
    (∀ (env : Env) (root : String) (d fuel : Nat),
      ∀ e ∈ (buildStaged env root d fuel).edges, EdgeOk env e) :=
  ⟨fun env root d e he => (buildInterleaved_inv env root d).2.2.2.1 e he,
   fun env root d fuel e he => buildStaged_edges_ok env root d fuel e he⟩

/-- C5 witness: the concrete edge `200 → 100` recorded in the demo
traversal points from the discovered citing neighbor into the expanded
node. -/
theorem c5_edge_direction_witness :
    EdgeOk demoEnv { source := "200", target := "100", type := EdgeType.cites } :=
  c5_edge_direction.1 demoEnv "100" 1
    { source := "200", target := "100", type := EdgeType.cites } (by decide)

/-- C6: in both traversal modes no two emitted nodes share an id, the
visited set is duplicate-free, and no id is fetched or parsed twice — in
interleaved mode the fetch trace is exactly the visited set in order, in
staged mode the fetch trace is duplicate-free (it is the collected id set)
and the parsed XML pairs carry duplicate-free keys. -/
theorem c6_dedup :
    (∀ (env : Env) (root : String) (d : Nat),
      (buildInterleaved env root d).processed.Nodup ∧
      (nodeIds (buildInterleaved env root d)).Nodup ∧
      fetchIds (buildInterleaved env root d).calls = (buildInterleaved env root d).processed) ∧
    (∀ (env : Env) (root : String) (d fuel : Nat),
      (buildStaged env root d fuel).processed.Nodup ∧
      (nodeIds (buildStaged env root d fuel)).Nodup ∧
      (fetchIds (buildStaged env root d fuel).calls).Nodup ∧
      ((fetchXmlData env (phase1 env root d fuel).allPmids).map Prod.fst).Nodup) := by
  constructor
  · intro env root d
    obtain ⟨h1, _, h3, _, h5⟩ := buildInterleaved_inv env root d
    exact ⟨h1, h3, h5⟩
  · intro env root d fuel
    refine ⟨buildStaged_processed_nodup env root d fuel, ?_, ?_, ?_⟩
    · rw [buildStaged_nodeIds]
      exact buildStaged_processed_nodup env root d fuel
    · rw [buildStaged_fetch_trace]
      exact (phase1_inv env root d fuel).1
    · exact (fetchXmlData_fst_sublist env _).nodup (phase1_inv env root d fuel).1

/-- C7: in both traversal modes, every node emitted into the final node
list of a traversal with requested depth `d` has `level ≤ d`. -/
theorem c7_level_le_depth :
    (∀ (env : Env) (root : String) (d : Nat),
      ∀ n ∈ (buildInterleaved env root d).nodes, n.level ≤ d) ∧
    (∀ (env : Env) (root : String) (d fuel : Nat),
      ∀ n ∈ (buildStaged env root d fuel).nodes, n.level ≤ d) :=
  ⟨fun env root d n hn => ((buildInterleaved_inv env root d).2.1 n hn).2,
   fun env root d fuel n hn => buildStaged_level_le env root d fuel n hn⟩

/-- C7 witness: the node `200`, emitted at depth 1 of the demo traversal
with requested depth 1, has level ≤ 1. -/
theorem c7_level_le_depth_witness :
    ({ id := "200", pmid := "200", doi := none, title := "", authors := [], journal := none
       year := none, citationCount := 0, level := 1 } : NetworkNode).level ≤ 1 :=
  c7_level_le_depth.1 demoEnv "100" 1
    { id := "200", pmid := "200", doi := none, title := "", authors := [], journal := none
      year := none, citationCount := 0, level := 1 } (by decide)

/-- C10: every edge emitted by either traversal mode carries relation type
`cites`; the type `cited_by`, although admitted by the `NetworkEdge`
schema, is never produced. -/
theorem c10_edges_always_cites :
    (∀ (env : Env) (root : String) (d : Nat),
      ∀ e ∈ (buildInterleaved env root d).edges,
        e.type = EdgeType.cites ∧ e.type ≠ EdgeType.cited_by) ∧
    (∀ (env : Env) (root : String) (d fuel : Nat),
      ∀ e ∈ (buildStaged env root d fuel).edges,
        e.type = EdgeType.cites ∧ e.type ≠ EdgeType.cited_by) := by
  constructor
  · intro env root d e he
    have h := ((buildInterleaved_inv env root d).2.2.2.1 e he).1
    rw [h]
    exact ⟨rfl, fun hc => EdgeType.noConfusion hc⟩
  · intro env root d fuel e he
    have h := (buildStaged_edges_ok env root d fuel e he).1
    rw [h]
    exact ⟨rfl, fun hc => EdgeType.noConfusion hc⟩

/-- C10 witness: the concrete edge `300 → 100` of the demo traversal has
type `cites` and not `cited_by`. -/
theorem c10_edges_always_cites_witness :
    ({ source := "300", target := "100", type := EdgeType.cites } : NetworkEdge).type =
        EdgeType.cites ∧
      ({ source := "300", target := "100", type := EdgeType.cites } : NetworkEdge).type ≠
        EdgeType.cited_by :=
  c10_edges_always_cites.1 demoEnv "100" 1
    { source := "300", target := "100", type := EdgeType.cites } (by decide)
